import Mathlib

/-!
# A single-file HTTP/1.1 static file server (`server.c`)

Shallow embedding of the request pipeline of `server.c`: the two `sscanf`
parsers, `strrchr`-based extension lookup, the MIME table, the header
renderer, the path assembly in the 4096-byte `full_path` buffer and the
file transfer of `send_http_response`.

Modelling conventions.

* A C `char` is a Lean `Char`; a C string or byte run is a `List Char`.
  A `char` array handed to a string function is read up to its first NUL
  byte (`c_str`).
* `NULL` results are `none`.
* The file system is a function from path names to files; `open(2)` is
  `sys_open`, the Linux `sendfile(2)` is `sys_sendfile`: one call moves at
  most `0x7ffff000` bytes.  `send` is taken to write the whole header,
  `malloc` to succeed.
* Writing past the end of a fixed-size array is undefined behaviour in C;
  the model stops there with `Fault.buffer_overflow`.
-/

namespace WebServer

/-! ## Constants -/

/-- `HTTP_BUFFER_SIZE`. -/
def HTTP_BUFFER_SIZE : Nat := 4096

/-- `HTTP_ROOT_DIR`. -/
def HTTP_ROOT_DIR : List Char := "./public".toList

/-! ## C library -/

/-- The terminating NUL of a C string. -/
def NUL : Char := Char.ofNat 0

/-- What a string function sees of a `char` array: the characters before
the first NUL byte. -/
def c_str (buf : List Char) : List Char :=
  buf.takeWhile (fun c => c != NUL)

/-- `isspace` in the C locale: space, `\t`, `\n`, `\v`, `\f`, `\r`. -/
def isspace (c : Char) : Bool :=
  c == ' ' || (9 ≤ c.toNat && c.toNat ≤ 13)

/-- One `%s` conversion of `sscanf`, with an optional maximum field width.
Leading white space is skipped; at the end of the input the conversion
fails (`none`).  Otherwise the field is the longest run of characters that
are not white space, cut to the field width, and the unread rest of the
input is returned with it. -/
def scan_s (width : Option Nat) (input : List Char) : Option (List Char × List Char) :=
  match input.dropWhile isspace with
  | [] => none
  | c :: cs =>
    let run := (c :: cs).takeWhile (fun x => !isspace x)
    let field := match width with
      | none => run
      | some w => run.take w
    some (field, (c :: cs).drop field.length)

/-- `strrchr(s, c)`: the suffix of `s` that starts at the last occurrence
of `c`, `none` (NULL) when `c` does not occur. -/
def strrchr : List Char → Char → Option (List Char)
  | [], _ => none
  | x :: xs, c =>
    match strrchr xs c with
    | some r => some r
    | none => if x = c then some (x :: xs) else none

/-- `snprintf(buf, size, ...)`: at most `size - 1` characters of the
formatted text are stored. -/
def snprintf (size : Nat) (formatted : List Char) : List Char :=
  formatted.take (size - 1)

/-- The `%d` and `%ld` conversions: signed decimal. -/
def fmt_d (i : Int) : List Char :=
  match i with
  | Int.ofNat n => (Nat.repr n).toList
  | Int.negSucc n => '-' :: (Nat.repr (n + 1)).toList

/-! ## Operating system -/

/-- An open file as `send_http_response` uses it: `st_size` is the size
`fstat` reports (`none` when `fstat` fails), `bytes` is what `sendfile`
can read from offset 0. -/
structure File where
  st_size : Option Nat
  bytes : List Char
deriving DecidableEq

/-- The files a path name leads to; `none` when there is none that can be
read. -/
abbrev FileSystem := List Char → Option File

/-- `PATH_MAX` of Linux: the longest path name, terminator included. -/
def PATH_MAX : Nat := 4096

/-- `open(path, O_RDONLY)`: fails with `ENAMETOOLONG` when the path and its
terminator do not fit `PATH_MAX` bytes, otherwise succeeds exactly when the
file system has a readable file there. -/
def sys_open (fs : FileSystem) (path : List Char) : Option File :=
  if PATH_MAX ≤ path.length then none else fs path

/-- The most one `sendfile` call transfers on Linux: `0x7ffff000`
(2,147,479,552) bytes. -/
def SENDFILE_MAX : Nat := 0x7ffff000

/-- The single call `sendfile(client_fd, file_fd, 0, count)` of the Linux
branch, on a file just opened: the bytes from offset 0, `count` of them at
most and never more than `SENDFILE_MAX`.  The result of the call is ignored
by the caller, so nothing is sent after these. -/
def sys_sendfile (file : File) (count : Nat) : List Char :=
  file.bytes.take (min count SENDFILE_MAX)

/-! ## The server -/

/-- What serving one connection does to the outside world: the paths
passed to `open`, in order, and the bytes written to the client socket
before it is closed. -/
structure Conn where
  opened : List (List Char)
  sent : List Char
deriving DecidableEq

/-- Undefined behaviour the model detects. -/
inductive Fault where
  | buffer_overflow
deriving DecidableEq

/-- `parse_http_method`: `sscanf(request_data, "%15s", method)`. -/
def parse_http_method (request_data : List Char) : Option (List Char) :=
  match scan_s (some 15) (c_str request_data) with
  | none => none
  | some (method, _) => some method

/-- `parse_file_path`: `sscanf(request_data, "%*s %s", path)`.  The first
field is matched and dropped, the blank in the format skips white space,
the second field is stored whole. -/
def parse_file_path (request_data : List Char) : Option (List Char) :=
  match scan_s none (c_str request_data) with
  | none => none
  | some (_, rest) =>
    match scan_s none (rest.dropWhile isspace) with
    | none => none
    | some (path, _) => some path

/-- `get_file_extension`: `strrchr(file_path, '.')`, NULL for NULL. -/
def get_file_extension (file_path : Option (List Char)) : Option (List Char) :=
  match file_path with
  | none => none
  | some p => strrchr p '.'

/-- The `mime_types` table of `get_content_type`. -/
def mime_types : List (List Char × List Char) :=
  [ (".html".toList, "text/html".toList),
    (".css".toList, "text/css".toList),
    (".js".toList, "application/javascript".toList),
    (".png".toList, "image/png".toList),
    (".jpg".toList, "image/jpeg".toList),
    (".jpeg".toList, "image/jpeg".toList),
    (".mp4".toList, "video/mp4".toList),
    (".webm".toList, "video/webm".toList),
    (".ogg".toList, "video/ogg".toList),
    (".avi".toList, "video/x-msvideo".toList),
    (".mpeg".toList, "video/mpeg".toList) ]

/-- `get_content_type`: `text/html` for NULL, else the type of the first
table row whose extension `strcmp`s equal, NULL when there is none. -/
def get_content_type (ext : Option (List Char)) : Option (List Char) :=
  match ext with
  | none => some "text/html".toList
  | some e => (mime_types.find? (fun row => row.1 == e)).map (fun row => row.2)

/-- `create_http_header`: the `snprintf` into the 4096-byte header
buffer. -/
def create_http_header (status_code : Int) (status_msg content_type : List Char)
    (content_length : Int) : List Char :=
  snprintf HTTP_BUFFER_SIZE
    ("HTTP/1.1 ".toList ++ fmt_d status_code ++ " ".toList ++ status_msg ++ "\r\n".toList ++
     "Content-Type: ".toList ++ content_type ++ "\r\n".toList ++
     "Content-Length: ".toList ++ fmt_d content_length ++ "\r\n".toList ++
     "Connection: close\r\n".toList ++
     "\r\n".toList)

/-- The part of `send_http_response` after a file has been opened:
`fstat`, then the header and one `sendfile` call, or nothing when `fstat`
fails. -/
def send_opened (opened : List (List Char)) (file : File) (status_code : Int)
    (status_msg content_type : List Char) : Conn :=
  match file.st_size with
  | none => { opened := opened, sent := [] }
  | some size =>
    { opened := opened,
      sent := create_http_header status_code status_msg content_type size ++
        sys_sendfile file size }

/-- `send_http_response`. -/
def send_http_response (fs : FileSystem) (file_path : List Char) (status_code : Int)
    (status_msg content_type : List Char) : Conn :=
  match sys_open fs file_path with
  | some file => send_opened [file_path] file status_code status_msg content_type
  | none =>
    match sys_open fs "./err/404.html".toList with
    | none => { opened := [file_path, "./err/404.html".toList], sent := [] }
    | some file =>
      send_opened [file_path, "./err/404.html".toList] file 404 "Not Found".toList
        "text/html".toList

/-- `handle_client_request`. -/
def handle_client_request (fs : FileSystem) (http_method request_path file_ext : Option (List Char)) :
    Except Fault Conn :=
  match http_method, request_path with
  | none, _ =>
    .ok (send_http_response fs "./err/400.html".toList 400 "Bad Request".toList "text/html".toList)
  | some _, none =>
    .ok (send_http_response fs "./err/400.html".toList 400 "Bad Request".toList "text/html".toList)
  | some method, some path =>
    if method ≠ "GET".toList then
      .ok (send_http_response fs "./err/405.html".toList 405 "Method Not Allowed".toList
        "text/html".toList)
    else
      let full_path := snprintf HTTP_BUFFER_SIZE (HTTP_ROOT_DIR ++ path)
      let indexed : Except Fault (List Char × List Char) :=
        match file_ext with
        | some ext => .ok (full_path, ext)
        | none =>
          -- strcat(full_path, "/index.html") needs room for the text and its NUL
          if full_path.length + "/index.html".length + 1 ≤ HTTP_BUFFER_SIZE then
            .ok (full_path ++ "/index.html".toList, ".html".toList)
          else .error Fault.buffer_overflow
      match indexed with
      | .error f => .error f
      | .ok (full_path, ext) =>
        match get_content_type (some ext) with
        | none =>
          .ok (send_http_response fs "./err/415.html".toList 415
            "Unsupported Media Type".toList "text/html".toList)
        | some content_type =>
          .ok (send_http_response fs full_path 200 "OK".toList content_type)

/-- One turn of the loop of `main` after `recv` has put at most
`HTTP_BUFFER_SIZE - 1` bytes into the zeroed `request_buffer`: parse, then
handle. -/
def main_loop (fs : FileSystem) (request_buffer : List Char) : Except Fault Conn :=
  let method := parse_http_method request_buffer
  let request_path := parse_file_path request_buffer
  let file_extension := get_file_extension request_path
  handle_client_request fs method request_path file_extension

/-! ## Vocabulary of the specification -/

/-- The white-space-delimited tokens of a text: the non-empty pieces
between its white-space characters. -/
def tokens (text : List Char) : List (List Char) :=
  (text.splitOnP isspace).filter (fun piece => !piece.isEmpty)

/-- The request line of a request: the text before the first line
break. -/
def request_line (buf : List Char) : List Char :=
  buf.takeWhile (fun c => c != '\r' && c != '\n')

/-- A regular file that `open` and `fstat` succeed on and that the one
`sendfile` call transfers: the size reported is the number of its bytes,
and is at most `SENDFILE_MAX`. -/
def readable (fs : FileSystem) (path content : List Char) : Prop :=
  sys_open fs path = some { st_size := some content.length, bytes := content } ∧
    content.length ≤ SENDFILE_MAX

/-- The response of section 6 of the specification: status line,
`Content-Type`, `Content-Length`, `Connection: close`, an empty line, the
body. -/
def http_response (code : Nat) (reason content_type body : List Char) : List Char :=
  "HTTP/1.1 ".toList ++ (Nat.repr code).toList ++ " ".toList ++ reason ++ "\r\n".toList ++
  "Content-Type: ".toList ++ content_type ++ "\r\n".toList ++
  "Content-Length: ".toList ++ (Nat.repr body.length).toList ++ "\r\n".toList ++
  "Connection: close\r\n".toList ++
  "\r\n".toList ++ body

/-- One segment of a path walked from the directory reached so far (its
names innermost first): an empty segment and `.` stay, `..` goes up one
directory (`none` when there is none left), a name goes down. -/
def resolve_step (acc : Option (List (List Char))) (seg : List Char) :
    Option (List (List Char)) :=
  match acc with
  | none => none
  | some stack =>
    if seg = [] ∨ seg = ".".toList then some stack
    else if seg = "..".toList then
      match stack with
      | [] => none
      | _ :: up => some up
    else some (seg :: stack)

/-- Resolution of the `.` and `..` segments of a relative path: the
directory names left, outermost first; `none` when the path climbs above
the directory it starts from. -/
def resolve_dots (path : List Char) : Option (List (List Char)) :=
  ((path.splitOn '/').foldl resolve_step (some [])).map List.reverse

/-- The path to open for a target: root followed by target, cut to the
4095 characters the path buffer holds, with `/index.html` appended when the
target has no dot. -/
def resolved_path (target : List Char) : List Char :=
  if '.' ∈ target then (HTTP_ROOT_DIR ++ target).take 4095
  else (HTTP_ROOT_DIR ++ target).take 4095 ++ "/index.html".toList

/-- The path, once resolved, lies inside the serve directory `./public`. -/
def inside_root (path : List Char) : Bool :=
  match resolve_dots path with
  | some (top :: _) => top == "public".toList
  | _ => false

/-- The status codes and reason phrases of the `send_http_response` calls
in the source, with the 404 that `send_http_response` substitutes. -/
def status_lines : List (Nat × List Char) :=
  [ (200, "OK".toList),
    (400, "Bad Request".toList),
    (404, "Not Found".toList),
    (405, "Method Not Allowed".toList),
    (415, "Unsupported Media Type".toList) ]

/-- The error pages, a small document tree and a directory
`public_private` next to it; `./public/../err/404.html` is the 404 page, as
the kernel resolves `..`. -/
def demo_fs : FileSystem := fun path =>
  if path = "./err/400.html".toList then some ⟨some 3, "bad".toList⟩
  else if path = "./err/404.html".toList then some ⟨some 4, "gone".toList⟩
  else if path = "./err/405.html".toList then some ⟨some 2, "no".toList⟩
  else if path = "./err/415.html".toList then some ⟨some 4, "type".toList⟩
  else if path = "./public/../err/404.html".toList then some ⟨some 4, "gone".toList⟩
  else if path = "./public_private/index.html".toList then some ⟨some 6, "secret".toList⟩
  else if path = "./public//index.html".toList then some ⟨some 4, "home".toList⟩
  else if path = "./public/a.png".toList then some ⟨some 3, "PNG".toList⟩
  else none

/-- A target of 4091 characters without a dot. -/
def long_target : List Char := '/' :: List.replicate 4090 'a'

/-- A request of 4095 bytes, the most `recv` is asked for: `GET`, a blank
and `long_target`. -/
def long_request : List Char := "GET ".toList ++ long_target

/-- A target of 4090 characters without a `..` segment: 4085 slashes and
the file name `...js`. -/
def slashes_target : List Char := List.replicate 4085 '/' ++ "...js".toList

/-- A request of 4094 bytes: `GET`, a blank and `slashes_target`. -/
def slashes_request : List Char := "GET ".toList ++ slashes_target

/-- The first 4095 characters of root followed by `slashes_target`: the
file name is cut to `..`. -/
def slashes_path : List Char := HTTP_ROOT_DIR ++ List.replicate 4085 '/' ++ "..".toList

/-- A chain of 2042 nested directories, 4086 characters. -/
def deep_dirs : List Char := "/aa/".toList ++ (List.replicate 2041 "a/".toList).flatten

/-- A target of 4091 characters: the file `f.css` at the end of
`deep_dirs`. -/
def deep_target : List Char := deep_dirs ++ "f.css".toList

/-- A request of 4095 bytes: `GET`, a blank and `deep_target`. -/
def deep_request : List Char := "GET ".toList ++ deep_target

/-- The file `f` at the end of `deep_dirs` under the root, a path of 4095
characters. -/
def deep_file : List Char := HTTP_ROOT_DIR ++ deep_dirs ++ "f".toList

/-- A file system with the 404 page and `deep_file`. -/
def deep_fs : FileSystem := fun path =>
  if path = "./err/404.html".toList then some ⟨some 4, "gone".toList⟩
  else if path = deep_file then some ⟨some 4, "file".toList⟩
  else none

/-! ## Tokens and the two parsers -/

theorem tokens_nil : tokens [] = [] := by
  simp [tokens]

theorem tokens_cons_space {c : Char} (hc : isspace c = true) (s : List Char) :
    tokens (c :: s) = tokens s := by
  simp [tokens, List.splitOnP_cons, hc]

theorem tokens_dropWhile (s : List Char) : tokens (s.dropWhile isspace) = tokens s := by
  induction s with
  | nil => rfl
  | cons c s ih =>
    by_cases hc : isspace c = true
    · rw [List.dropWhile_cons_of_pos hc, ih, tokens_cons_space hc]
    · rw [List.dropWhile_cons_of_neg hc]

/-- The pieces of `splitOnP`: the run before the first separator, then the
pieces of what follows that separator. -/
theorem splitOnP_run (p : Char → Bool) (s : List Char) :
    s.splitOnP p = s.takeWhile (fun x => !p x) ::
      (match s.dropWhile (fun x => !p x) with
        | [] => []
        | _ :: r => r.splitOnP p) := by
  induction s with
  | nil => rfl
  | cons x xs ih =>
    by_cases hx : p x = true
    · simp [List.splitOnP_cons, hx]
    · have hx2 : p x = false := by simpa using hx
      rw [List.splitOnP_cons, ih]
      simp [hx2, List.modifyHead]

theorem dropWhile_head_not {p : Char → Bool} {s : List Char} {c : Char} {r : List Char}
    (h : s.dropWhile p = c :: r) : p c = false := by
  have := List.head?_dropWhile_not p s
  rw [h] at this
  simpa using this

theorem tokens_run {c : Char} (hc : isspace c = false) (cs : List Char) :
    tokens (c :: cs) = (c :: cs).takeWhile (fun x => !isspace x) ::
      tokens ((c :: cs).dropWhile (fun x => !isspace x)) := by
  have key := splitOnP_run isspace (c :: cs)
  unfold tokens
  rw [key]
  have h1 : (c :: cs).takeWhile (fun x => !isspace x)
      = c :: cs.takeWhile (fun x => !isspace x) := by
    simp [List.takeWhile_cons, hc]
  rw [List.filter_cons_of_pos (by rw [h1]; rfl)]
  congr 1
  cases hd : (c :: cs).dropWhile (fun x => !isspace x) with
  | nil => simp
  | cons sp r =>
    have hsp : isspace sp = true := by
      have := dropWhile_head_not hd
      simpa using this
    simp [List.splitOnP_cons, hsp]

theorem drop_length_takeWhile (p : Char → Bool) (s : List Char) :
    s.drop (s.takeWhile p).length = s.dropWhile p := by
  induction s with
  | nil => rfl
  | cons x xs ih =>
    by_cases hx : p x = true
    · simp [List.takeWhile_cons, List.dropWhile_cons, hx, ih]
    · simp [List.takeWhile_cons, List.dropWhile_cons, hx]

/-- An unbounded `%s` reads the first token and leaves the text after
it. -/
theorem scan_s_none_eq (s : List Char) :
    scan_s none s =
      match s.dropWhile isspace with
      | [] => none
      | c :: cs => some ((c :: cs).takeWhile (fun x => !isspace x),
          (c :: cs).dropWhile (fun x => !isspace x)) := by
  unfold scan_s
  cases h : s.dropWhile isspace with
  | nil => rfl
  | cons c cs => simp [drop_length_takeWhile]

theorem scan_s_none_tokens (s : List Char) :
    match scan_s none s with
    | none => tokens s = []
    | some (field, rest) => tokens s = field :: tokens rest := by
  rw [scan_s_none_eq]
  cases h : s.dropWhile isspace with
  | nil =>
    have := tokens_dropWhile s
    rw [h, tokens_nil] at this
    simpa using this.symm
  | cons c cs =>
    have hc : isspace c = false := dropWhile_head_not h
    have := tokens_dropWhile s
    rw [h, tokens_run hc] at this
    simpa using this.symm

theorem scan_s_width (w : Nat) (s : List Char) :
    (scan_s (some w) s).map Prod.fst = (scan_s none s).map (fun r => r.1.take w) := by
  unfold scan_s
  cases h : s.dropWhile isspace <;> simp

theorem parse_http_method_eq (buf : List Char) :
    parse_http_method buf = (tokens (c_str buf)).head?.map (fun tok => tok.take 15) := by
  have h1 := scan_s_width 15 (c_str buf)
  have h2 := scan_s_none_tokens (c_str buf)
  unfold parse_http_method
  cases h : scan_s none (c_str buf) with
  | none =>
    rw [h] at h1 h2
    simp only at h2
    rw [h2]
    cases h3 : scan_s (some 15) (c_str buf) with
    | none => rfl
    | some r => rw [h3] at h1; simp at h1
  | some r =>
    obtain ⟨field, rest⟩ := r
    rw [h] at h1 h2
    simp only at h2
    rw [h2]
    cases h3 : scan_s (some 15) (c_str buf) with
    | none => rw [h3] at h1; simp at h1
    | some r2 =>
      obtain ⟨f2, r2⟩ := r2
      rw [h3] at h1
      simp at h1
      simp [h1]

theorem parse_file_path_eq (buf : List Char) :
    parse_file_path buf = (tokens (c_str buf)).tail.head? := by
  have h2 := scan_s_none_tokens (c_str buf)
  unfold parse_file_path
  cases h : scan_s none (c_str buf) with
  | none =>
    rw [h] at h2
    simp only at h2
    simp [h2]
  | some r =>
    obtain ⟨field, rest⟩ := r
    rw [h] at h2
    simp only at h2
    have h4 := scan_s_none_tokens (rest.dropWhile isspace)
    rw [tokens_dropWhile] at h4
    cases h5 : scan_s none (rest.dropWhile isspace) with
    | none =>
      rw [h5] at h4
      simp only at h4
      simp [h2, h4, h5]
    | some r2 =>
      obtain ⟨f2, r2⟩ := r2
      rw [h5] at h4
      simp only at h4
      simp [h2, h4, h5]

/-- More text has at least as many tokens. -/
theorem tokens_length_append (a b : List Char) :
    (tokens a).length ≤ (tokens (a ++ b)).length := by
  have both : ∀ a : List Char,
      ((a.splitOnP isspace).filter (fun piece => !piece.isEmpty)).length ≤
        (((a ++ b).splitOnP isspace).filter (fun piece => !piece.isEmpty)).length ∧
      ((a.splitOnP isspace).tail.filter (fun piece => !piece.isEmpty)).length ≤
        (((a ++ b).splitOnP isspace).tail.filter (fun piece => !piece.isEmpty)).length := by
    intro a
    induction a with
    | nil => simp
    | cons c a ih =>
      obtain ⟨ih1, ih2⟩ := ih
      by_cases hc : isspace c = true
      · simp only [List.cons_append, List.splitOnP_cons, hc, if_true, List.tail_cons]
        exact ⟨by simpa using ih1, ih1⟩
      · simp only [List.cons_append, List.splitOnP_cons, hc]
        cases h1 : a.splitOnP isspace with
        | nil => exact absurd h1 (List.splitOnP_ne_nil _ _)
        | cons p1 t1 =>
          cases h2 : (a ++ b).splitOnP isspace with
          | nil => exact absurd h2 (List.splitOnP_ne_nil _ _)
          | cons p2 t2 =>
            rw [h1, h2] at ih2
            simp only [List.tail_cons] at ih2
            simpa [List.modifyHead] using ih2
  exact (both a).1

theorem tokens_c_str_length (buf : List Char) :
    (tokens (c_str buf)).length ≤ (tokens buf).length := by
  have h := tokens_length_append (c_str buf) (buf.dropWhile (fun c => c != NUL))
  unfold c_str at h
  rw [List.takeWhile_append_dropWhile] at h
  exact h

/-! ## The header -/

theorem fmt_d_natCast (n : Nat) : fmt_d (n : Int) = (Nat.repr n).toList := rfl

theorem repr_toList_length (n : Nat) (h : n < 2 ^ 63) : (Nat.repr n).toList.length ≤ 19 := by
  exact Nat.repr_length n 19 (by decide) (lt_of_lt_of_le h (by norm_num))

theorem sendfile_max_lt : SENDFILE_MAX < 2 ^ 63 := by
  norm_num [SENDFILE_MAX]

theorem sys_sendfile_whole (size : Option Nat) (content : List Char)
    (h : content.length ≤ SENDFILE_MAX) :
    sys_sendfile { st_size := size, bytes := content } content.length = content := by
  unfold sys_sendfile
  exact List.take_of_length_le (by rw [Nat.min_eq_left h])

/-- A header that fits the buffer is stored whole. -/
theorem create_http_header_whole (code : Int) (msg ct : List Char) (n : Int)
    (h : (fmt_d code).length + msg.length + ct.length + (fmt_d n).length ≤ 4028) :
    create_http_header code msg ct n =
      "HTTP/1.1 ".toList ++ fmt_d code ++ " ".toList ++ msg ++ "\r\n".toList ++
      "Content-Type: ".toList ++ ct ++ "\r\n".toList ++
      "Content-Length: ".toList ++ fmt_d n ++ "\r\n".toList ++
      "Connection: close\r\n".toList ++
      "\r\n".toList := by
  unfold create_http_header snprintf
  apply List.take_of_length_le
  simp only [List.length_append, HTTP_BUFFER_SIZE]
  have e1 : "HTTP/1.1 ".toList.length = 9 := rfl
  have e2 : " ".toList.length = 1 := rfl
  have e3 : "\r\n".toList.length = 2 := rfl
  have e4 : "Content-Type: ".toList.length = 14 := rfl
  have e5 : "Content-Length: ".toList.length = 16 := rfl
  have e6 : "Connection: close\r\n".toList.length = 19 := rfl
  rw [e1, e2, e3, e4, e5, e6]
  omega

/-- Serving a readable file: one `open`, then header and body. -/
theorem send_readable (fs : FileSystem) (path page : List Char) (code : Nat)
    (msg ct : List Char) (hp : readable fs path page)
    (hfit : (Nat.repr code).toList.length + msg.length + ct.length ≤ 4000) :
    send_http_response fs path code msg ct =
      { opened := [path], sent := http_response code msg ct page } := by
  obtain ⟨hopen, hsize⟩ := hp
  have hlen := repr_toList_length page.length (lt_of_le_of_lt hsize sendfile_max_lt)
  unfold send_http_response send_opened
  rw [hopen]
  simp only
  rw [create_http_header_whole _ _ _ _ (by rw [fmt_d_natCast, fmt_d_natCast]; omega),
    sys_sendfile_whole _ _ hsize]
  simp [http_response, fmt_d_natCast]

theorem status_lines_short :
    ∀ x ∈ status_lines, (Nat.repr x.1).toList.length = 3 ∧ x.2.length ≤ 22 := by
  decide

theorem mime_types_short : ∀ row ∈ mime_types, row.2.length ≤ 22 := by
  decide

/-! ## Extension lookup and the handler's branches -/

theorem strrchr_none {s : List Char} {c : Char} (h : c ∉ s) : strrchr s c = none := by
  induction s with
  | nil => rfl
  | cons x xs ih =>
    have hx : ¬ x = c := fun e => h (by simp [e])
    have hxs : c ∉ xs := fun m => h (List.mem_cons_of_mem _ m)
    simp [strrchr, ih hxs, hx]

theorem strrchr_last (stem suf : List Char) (c : Char) (h : c ∉ suf) :
    strrchr (stem ++ c :: suf) c = some (c :: suf) := by
  induction stem with
  | nil => simp [strrchr, strrchr_none h]
  | cons x xs ih => simp [strrchr, ih]

theorem get_content_type_row :
    ∀ row ∈ mime_types, get_content_type (some row.1) = some row.2 := by
  decide

theorem get_content_type_unknown {e : List Char} (h : e ∉ mime_types.map Prod.fst) :
    get_content_type (some e) = none := by
  unfold get_content_type
  simp only [Option.map_eq_none', List.find?_eq_none]
  intro row hrow hbeq
  apply h
  have : row.1 = e := by simpa using hbeq
  exact List.mem_map.2 ⟨row, hrow, this⟩

theorem main_loop_bad (fs : FileSystem) (buf : List Char)
    (h : parse_http_method buf = none ∨ parse_file_path buf = none) :
    main_loop fs buf = .ok (send_http_response fs "./err/400.html".toList 400
      "Bad Request".toList "text/html".toList) := by
  unfold main_loop handle_client_request
  rcases h with h | h
  · rw [h]
  · rw [h]
    cases parse_http_method buf <;> rfl

theorem main_loop_ext (fs : FileSystem) (buf target ext : List Char)
    (hm : parse_http_method buf = some "GET".toList)
    (ht : parse_file_path buf = some target) (he : strrchr target '.' = some ext) :
    main_loop fs buf =
      match get_content_type (some ext) with
      | none => .ok (send_http_response fs "./err/415.html".toList 415
          "Unsupported Media Type".toList "text/html".toList)
      | some ct => .ok (send_http_response fs (snprintf HTTP_BUFFER_SIZE (HTTP_ROOT_DIR ++ target))
          200 "OK".toList ct) := by
  unfold main_loop handle_client_request get_file_extension
  rw [hm, ht]
  simp only [he, ne_eq, not_true_eq_false, if_false]

theorem main_loop_dir (fs : FileSystem) (buf target : List Char)
    (hm : parse_http_method buf = some "GET".toList)
    (ht : parse_file_path buf = some target) (he : strrchr target '.' = none) :
    main_loop fs buf =
      if (snprintf HTTP_BUFFER_SIZE (HTTP_ROOT_DIR ++ target)).length + 12 ≤ HTTP_BUFFER_SIZE then
        .ok (send_http_response fs
          (snprintf HTTP_BUFFER_SIZE (HTTP_ROOT_DIR ++ target) ++ "/index.html".toList)
          200 "OK".toList "text/html".toList)
      else .error Fault.buffer_overflow := by
  unfold main_loop handle_client_request get_file_extension
  rw [hm, ht]
  simp only [he, ne_eq, not_true_eq_false, if_false]
  have e : "/index.html".length = 11 := rfl
  rw [e, Nat.add_assoc]
  by_cases hfit :
      (snprintf HTTP_BUFFER_SIZE (HTTP_ROOT_DIR ++ target)).length + (11 + 1) ≤ HTTP_BUFFER_SIZE
  · rw [if_pos hfit, if_pos hfit]
    rfl
  · rw [if_neg hfit, if_neg hfit]

/-- A request made of a method, one blank and a target, neither holding
white space or NUL, parses into the two. -/
theorem parse_plain (method target : List Char) (hm : method ≠ []) (ht : target ≠ [])
    (pm : ∀ c ∈ method, isspace c = false ∧ c ≠ NUL)
    (pt : ∀ c ∈ target, isspace c = false ∧ c ≠ NUL) :
    parse_http_method (method ++ ' ' :: target) = some (method.take 15) ∧
      parse_file_path (method ++ ' ' :: target) = some target := by
  have hc : c_str (method ++ ' ' :: target) = method ++ ' ' :: target := by
    unfold c_str
    rw [List.takeWhile_eq_self_iff]
    intro c hc
    rcases List.mem_append.1 hc with h | h
    · simpa using (pm c h).2
    · rcases List.mem_cons.1 h with h | h
      · subst h; decide
      · simpa using (pt c h).2
  have htok : tokens (method ++ ' ' :: target) = [method, target] := by
    unfold tokens
    rw [List.splitOnP_first isspace method (fun c h => by simp [(pm c h).1]) ' ' (by decide),
      List.splitOnP_eq_single isspace target (fun c h => by simp [(pt c h).1])]
    cases method with
    | nil => exact absurd rfl hm
    | cons _ _ =>
      cases target with
      | nil => exact absurd rfl ht
      | cons _ _ => rfl
  rw [parse_http_method_eq, parse_file_path_eq, hc, htok]
  exact ⟨rfl, rfl⟩

theorem snprintf_short {n : Nat} {text : List Char} (h : text.length < n) :
    snprintf n text = text := by
  unfold snprintf
  exact List.take_of_length_le (by omega)

theorem long_request_parse :
    parse_http_method long_request = some "GET".toList ∧
      parse_file_path long_request = some long_target := by
  have h := parse_plain "GET".toList long_target (by decide) (List.cons_ne_nil _ _)
    (by decide)
    (by
      intro c hc
      simp only [long_target, List.mem_cons, List.mem_replicate] at hc
      rcases hc with rfl | ⟨-, rfl⟩ <;> decide)
  exact h

theorem long_target_no_dot : '.' ∉ long_target := by
  intro hc
  simp only [long_target, List.mem_cons, List.mem_replicate] at hc
  rcases hc with h | ⟨-, h⟩
  · exact absurd h (by decide)
  · exact absurd h (by decide)

theorem long_path_length :
    (snprintf HTTP_BUFFER_SIZE (HTTP_ROOT_DIR ++ long_target)).length = 4095 := by
  have e : HTTP_ROOT_DIR.length = 8 := rfl
  simp only [snprintf, long_target, HTTP_BUFFER_SIZE, List.length_take, List.length_append,
    List.length_cons, List.length_replicate, e]
  omega

theorem long_request_overflow (fs : FileSystem) :
    main_loop fs long_request = .error Fault.buffer_overflow := by
  rw [main_loop_dir fs long_request long_target long_request_parse.1 long_request_parse.2
    (strrchr_none long_target_no_dot), long_path_length]
  rfl

theorem send_http_response_opened (fs : FileSystem) (path : List Char) (code : Int)
    (msg ct : List Char) :
    (send_http_response fs path code msg ct).opened.head? = some path := by
  unfold send_http_response send_opened
  cases sys_open fs path with
  | some file =>
    obtain ⟨size, bytes⟩ := file
    cases size <;> rfl
  | none =>
    cases sys_open fs "./err/404.html".toList with
    | none => rfl
    | some file =>
      obtain ⟨size, bytes⟩ := file
      cases size <;> rfl

theorem length_flatten_replicate (n : Nat) (l : List Char) :
    (List.replicate n l).flatten.length = n * l.length := by
  induction n with
  | zero => simp
  | succ n ih => rw [List.replicate_succ, List.flatten_cons, List.length_append, ih]; ring

theorem deep_dirs_length : deep_dirs.length = 4086 := by
  have e1 : "/aa/".toList.length = 4 := rfl
  have e2 : "a/".toList.length = 2 := rfl
  rw [deep_dirs, List.length_append, length_flatten_replicate, e1, e2]

theorem deep_file_length : deep_file.length = 4095 := by
  have e1 : HTTP_ROOT_DIR.length = 8 := rfl
  have e2 : "f".toList.length = 1 := rfl
  rw [deep_file, List.length_append, List.length_append, deep_dirs_length, e1, e2]

theorem deep_path_length : (HTTP_ROOT_DIR ++ deep_target).length = 4099 := by
  have e1 : HTTP_ROOT_DIR.length = 8 := rfl
  have e2 : "f.css".toList.length = 5 := rfl
  rw [deep_target, List.length_append, List.length_append, deep_dirs_length, e1, e2]

theorem deep_target_chars : ∀ c ∈ deep_target, c ∈ "/af.cs".toList := by
  intro c hc
  simp only [deep_target, deep_dirs, List.mem_append, List.mem_flatten,
    List.mem_replicate] at hc
  rcases hc with (h | ⟨l, ⟨-, rfl⟩, h⟩) | h
  · revert c; decide
  · revert c; decide
  · revert c; decide

theorem deep_request_parse :
    parse_http_method deep_request = some "GET".toList ∧
      parse_file_path deep_request = some deep_target := by
  have hne : deep_target ≠ [] := by
    intro h
    have := congrArg List.length h
    have e1 : HTTP_ROOT_DIR.length = 8 := rfl
    rw [← Nat.add_left_cancel_iff (n := HTTP_ROOT_DIR.length), ← List.length_append,
      deep_path_length] at this
    simp [e1] at this
  have plain : ∀ c ∈ "/af.cs".toList, isspace c = false ∧ c ≠ NUL := by decide
  exact parse_plain "GET".toList deep_target (by decide) hne (by decide)
    (fun c hc => plain c (deep_target_chars c hc))

theorem deep_path_cut : snprintf HTTP_BUFFER_SIZE (HTTP_ROOT_DIR ++ deep_target) = deep_file := by
  have e : HTTP_ROOT_DIR ++ deep_target = deep_file ++ ".css".toList := by
    simp only [deep_target, deep_file, List.append_assoc]
    rfl
  rw [e]
  exact List.take_left' deep_file_length

theorem deep_fs_file : readable deep_fs deep_file "file".toList := by
  have hne : deep_file ≠ "./err/404.html".toList := by
    intro h
    have := congrArg List.length h
    rw [deep_file_length] at this
    exact absurd this (by decide)
  refine ⟨?_, by decide⟩
  unfold sys_open
  rw [if_neg (by rw [deep_file_length]; decide)]
  unfold deep_fs
  rw [if_neg hne, if_pos rfl]
  rfl

theorem deep_fs_missing : sys_open deep_fs (HTTP_ROOT_DIR ++ deep_target) = none := by
  unfold sys_open
  rw [if_pos (by rw [deep_path_length]; decide)]

theorem strrchr_of_mem {s : List Char} {c : Char} (h : c ∈ s) : strrchr s c ≠ none := by
  induction s with
  | nil => exact absurd h (List.not_mem_nil c)
  | cons x xs ih =>
    unfold strrchr
    cases hxs : strrchr xs c with
    | some r => simp
    | none =>
      have hx : x = c := by
        rcases List.mem_cons.1 h with e | m
        · exact e.symm
        · exact absurd hxs (ih m)
      simp [hx]

theorem resolve_fold_names (segs : List (List Char)) (h : "..".toList ∉ segs) :
    ∀ stack : List (List Char),
      ∃ names, segs.foldl resolve_step (some stack) = some (names ++ stack) := by
  induction segs with
  | nil => intro stack; exact ⟨[], rfl⟩
  | cons seg rest ih =>
    intro stack
    have hseg : seg ≠ "..".toList := fun e => h (by simp [e])
    have hrest : "..".toList ∉ rest := fun m => h (List.mem_cons_of_mem _ m)
    rw [List.foldl_cons]
    by_cases hskip : seg = [] ∨ seg = ".".toList
    · have e : resolve_step (some stack) seg = some stack := by
        simp only [resolve_step, if_pos hskip]
      rw [e]
      exact ih hrest stack
    · have e : resolve_step (some stack) seg = some (seg :: stack) := by
        simp only [resolve_step, if_neg hskip, if_neg hseg]
      rw [e]
      obtain ⟨names, hn⟩ := ih hrest (seg :: stack)
      exact ⟨names ++ [seg], by rw [hn]; simp⟩

theorem splitOn_under_root (r : List Char) :
    ("./public/".toList ++ r).splitOn '/' = ".".toList :: "public".toList :: r.splitOn '/' := by
  have e : "./public/".toList ++ r = ".".toList ++ '/' :: ("public".toList ++ '/' :: r) := rfl
  rw [List.splitOn, e, List.splitOnP_first _ _ (by decide) '/' (by decide),
    List.splitOnP_first _ _ (by decide) '/' (by decide)]
  rfl

/-- A path under `./public/` without a `..` segment stays inside the
root. -/
theorem inside_root_of_no_dotdot (r : List Char)
    (h : "..".toList ∉ ("./public/".toList ++ r).splitOn '/') :
    inside_root ("./public/".toList ++ r) = true := by
  rw [splitOn_under_root] at h
  have hr : "..".toList ∉ r.splitOn '/' :=
    fun m => h (List.mem_cons_of_mem _ (List.mem_cons_of_mem _ m))
  obtain ⟨names, hn⟩ := resolve_fold_names _ hr ["public".toList]
  have e1 : resolve_step (some []) ".".toList = some [] := by decide
  have e2 : resolve_step (some []) "public".toList = some ["public".toList] := by decide
  unfold inside_root resolve_dots
  rw [splitOn_under_root, List.foldl_cons, e1, List.foldl_cons, e2, hn]
  simp

theorem cut_under_root (rest : List Char) :
    (HTTP_ROOT_DIR ++ '/' :: rest).take 4095 = "./public/".toList ++ rest.take 4086 := by
  have e : HTTP_ROOT_DIR ++ '/' :: rest = "./public/".toList ++ rest := rfl
  have e2 : List.take 4095 "./public/".toList = "./public/".toList := by decide
  have e3 : "./public/".toList.length = 9 := rfl
  rw [e, List.take_append_eq_append_take, e2, e3]

theorem resolved_path_under_root (rest : List Char) :
    ∃ r, resolved_path ('/' :: rest) = "./public/".toList ++ r := by
  unfold resolved_path
  rw [cut_under_root]
  split
  · exact ⟨_, rfl⟩
  · exact ⟨rest.take 4086 ++ "/index.html".toList, by rw [List.append_assoc]⟩

theorem resolved_path_rooted (target : List Char) : HTTP_ROOT_DIR <+: resolved_path target := by
  have hcut : HTTP_ROOT_DIR <+: (HTTP_ROOT_DIR ++ target).take 4095 := by
    rw [List.take_append_eq_append_take]
    have e : List.take 4095 HTTP_ROOT_DIR = HTTP_ROOT_DIR := by decide
    rw [e]
    exact List.prefix_append _ _
  unfold resolved_path
  split
  · exact hcut
  · exact hcut.trans (List.prefix_append _ _)

theorem splitOn_append_slash (a b : List Char) :
    (a ++ '/' :: b).splitOn '/' = a.splitOn '/' ++ b.splitOn '/' := by
  unfold List.splitOn
  induction a with
  | nil => simp
  | cons x xs ih =>
    rw [List.cons_append, List.splitOnP_cons, List.splitOnP_cons, ih]
    by_cases hx : (x == '/') = true
    · rw [if_pos hx, if_pos hx]; rfl
    · rw [if_neg hx, if_neg hx]
      cases h : List.splitOnP (fun c => c == '/') xs with
      | nil => exact absurd h (List.splitOnP_ne_nil _ _)
      | cons p t => rfl

theorem splitOn_slashes (n : Nat) (s : List Char) :
    (List.replicate n '/' ++ s).splitOn '/' = List.replicate n [] ++ s.splitOn '/' := by
  induction n with
  | zero => rfl
  | succ n ih =>
    have e := splitOn_append_slash [] (List.replicate n '/' ++ s)
    rw [List.replicate_succ, List.cons_append, List.replicate_succ, List.cons_append]
    rw [List.nil_append] at e
    rw [e, ih]
    rfl

theorem resolve_fold_empty (n : Nat) (acc : Option (List (List Char))) :
    (List.replicate n []).foldl resolve_step acc = acc := by
  induction n with
  | zero => rfl
  | succ n ih =>
    rw [List.replicate_succ, List.foldl_cons]
    cases acc with
    | none => exact ih
    | some stack =>
      have e : resolve_step (some stack) [] = some stack := by simp [resolve_step]
      rw [e, ih]

/-- A target that begins with a slash, has no `..` segment and is not cut
gives a path without a `..` segment. -/
theorem resolved_path_no_dotdot (rest : List Char)
    (hfit : (HTTP_ROOT_DIR ++ '/' :: rest).length ≤ 4095)
    (h : "..".toList ∉ ('/' :: rest).splitOn '/') :
    "..".toList ∉ (resolved_path ('/' :: rest)).splitOn '/' := by
  have hrest : "..".toList ∉ rest.splitOn '/' := by
    have e := splitOn_append_slash [] rest
    rw [List.nil_append] at e
    rw [e] at h
    exact fun m => h (List.mem_append_right _ m)
  have hcut : (HTTP_ROOT_DIR ++ '/' :: rest).take 4095 = "./public/".toList ++ rest := by
    rw [List.take_of_length_le hfit]
    rfl
  unfold resolved_path
  rw [hcut]
  split
  · rw [splitOn_under_root]
    intro m
    rcases List.mem_cons.1 m with e | m
    · exact absurd e (by decide)
    · rcases List.mem_cons.1 m with e | m
      · exact absurd e (by decide)
      · exact hrest m
  · rw [List.append_assoc, splitOn_under_root]
    have e : rest ++ "/index.html".toList = rest ++ '/' :: "index.html".toList := rfl
    rw [e, splitOn_append_slash]
    intro m
    rcases List.mem_cons.1 m with e | m
    · exact absurd e (by decide)
    · rcases List.mem_cons.1 m with e | m
      · exact absurd e (by decide)
      · rcases List.mem_append.1 m with m | m
        · exact hrest m
        · revert m; decide

theorem slashes_request_parse :
    parse_http_method slashes_request = some "GET".toList ∧
      parse_file_path slashes_request = some slashes_target := by
  have hne : slashes_target ≠ [] := by
    rw [slashes_target, List.replicate_succ]
    exact List.cons_ne_nil _ _
  have plain : ∀ c ∈ "...js".toList, isspace c = false ∧ c ≠ NUL := by decide
  exact parse_plain "GET".toList slashes_target (by decide) hne (by decide)
    (by
      intro c hc
      simp only [slashes_target, List.mem_append, List.mem_replicate] at hc
      rcases hc with ⟨-, rfl⟩ | h
      · decide
      · exact plain c h)

theorem slashes_path_length : slashes_path.length = 4095 := by
  have e1 : HTTP_ROOT_DIR.length = 8 := rfl
  have e2 : "..".toList.length = 2 := rfl
  rw [slashes_path, List.length_append, List.length_append, List.length_replicate, e1, e2]

theorem slashes_path_cut :
    (HTTP_ROOT_DIR ++ slashes_target).take 4095 = slashes_path := by
  have e : HTTP_ROOT_DIR ++ slashes_target = slashes_path ++ ".js".toList := by
    simp only [slashes_target, slashes_path, List.append_assoc]
    rfl
  rw [e]
  exact List.take_left' slashes_path_length

theorem slashes_target_ext : strrchr slashes_target '.' = some ".js".toList := by
  have e : slashes_target = (List.replicate 4085 '/' ++ "..".toList) ++ '.' :: "js".toList := by
    simp only [slashes_target, List.append_assoc]
    rfl
  rw [e]
  exact strrchr_last _ _ '.' (by decide)

theorem slashes_run (fs : FileSystem) :
    main_loop fs slashes_request =
      .ok (send_http_response fs slashes_path 200 "OK".toList
        "application/javascript".toList) := by
  have hct : get_content_type (some ".js".toList) = some "application/javascript".toList := by
    decide
  rw [main_loop_ext fs slashes_request slashes_target _ slashes_request_parse.1
    slashes_request_parse.2 slashes_target_ext, hct]
  simp only
  have e : snprintf HTTP_BUFFER_SIZE (HTTP_ROOT_DIR ++ slashes_target) = slashes_path :=
    slashes_path_cut
  rw [e]

theorem slashes_target_segments : "..".toList ∉ slashes_target.splitOn '/' := by
  have e : "...js".toList.splitOn '/' = ["...js".toList] := by decide
  rw [slashes_target, splitOn_slashes, e]
  intro m
  rcases List.mem_append.1 m with m | m
  · exact absurd (List.eq_of_mem_replicate m) (by decide)
  · revert m; decide

theorem slashes_path_resolved : resolve_dots slashes_path = some [] := by
  have e : slashes_path = "./public/".toList ++ (List.replicate 4084 '/' ++ "..".toList) := by
    rw [slashes_path, List.replicate_succ]
    rfl
  have e0 : "..".toList.splitOn '/' = ["..".toList] := by decide
  have e1 : resolve_step (some []) ".".toList = some [] := by decide
  have e2 : resolve_step (some []) "public".toList = some ["public".toList] := by decide
  have e3 : resolve_step (some ["public".toList]) "..".toList = some [] := by decide
  unfold resolve_dots
  rw [e, splitOn_under_root, splitOn_slashes, e0, List.foldl_cons, e1, List.foldl_cons, e2,
    List.foldl_append, resolve_fold_empty, List.foldl_cons, e3]
  rfl

/-! ## Claims -/

/-- C7. For each of the five status lines the server uses, each content
type of the MIME table and each file size below `2 ^ 63`,
`create_http_header` stores exactly the status line, the `Content-Type`,
`Content-Length` (decimal) and `Connection: close` lines and the empty
line; the text is shorter than the 4096-byte buffer and ends with the
empty line. -/
theorem create_http_header_exact (code : Nat) (reason ct : List Char) (n : Nat)
    (hs : (code, reason) ∈ status_lines) (hct : ct ∈ mime_types.map Prod.snd)
    (hn : n < 2 ^ 63) :
    create_http_header code reason ct n =
        "HTTP/1.1 ".toList ++ (Nat.repr code).toList ++ " ".toList ++ reason ++ "\r\n".toList ++
        "Content-Type: ".toList ++ ct ++ "\r\n".toList ++
        "Content-Length: ".toList ++ (Nat.repr n).toList ++ "\r\n".toList ++
        "Connection: close\r\n".toList ++ "\r\n".toList ∧
      (create_http_header code reason ct n).length < HTTP_BUFFER_SIZE ∧
      "\r\n\r\n".toList <:+ create_http_header code reason ct n := by
  have h1 := status_lines_short (code, reason) hs
  obtain ⟨row, hrow, rfl⟩ := List.mem_map.1 hct
  have h2 := mime_types_short row hrow
  have h3 := repr_toList_length n hn
  simp only at h1
  have whole := create_http_header_whole code reason row.2 n
    (by rw [fmt_d_natCast, fmt_d_natCast]; omega)
  rw [fmt_d_natCast, fmt_d_natCast] at whole
  refine ⟨whole, ?_, ?_⟩
  · rw [whole]
    simp only [List.length_append, HTTP_BUFFER_SIZE]
    have e1 : "HTTP/1.1 ".toList.length = 9 := rfl
    have e2 : " ".toList.length = 1 := rfl
    have e3 : "\r\n".toList.length = 2 := rfl
    have e4 : "Content-Type: ".toList.length = 14 := rfl
    have e5 : "Content-Length: ".toList.length = 16 := rfl
    have e6 : "Connection: close\r\n".toList.length = 19 := rfl
    rw [e1, e2, e3, e4, e5, e6]
    omega
  · rw [whole]
    refine ⟨"HTTP/1.1 ".toList ++ (Nat.repr code).toList ++ " ".toList ++ reason ++ "\r\n".toList ++
        "Content-Type: ".toList ++ row.2 ++ "\r\n".toList ++
        "Content-Length: ".toList ++ (Nat.repr n).toList ++ "\r\n".toList ++
        "Connection: close".toList, ?_⟩
    simp

theorem create_http_header_exact_witness :
    create_http_header 200 "OK".toList "image/png".toList 1234 =
        "HTTP/1.1 ".toList ++ (Nat.repr 200).toList ++ " ".toList ++ "OK".toList ++ "\r\n".toList ++
        "Content-Type: ".toList ++ "image/png".toList ++ "\r\n".toList ++
        "Content-Length: ".toList ++ (Nat.repr 1234).toList ++ "\r\n".toList ++
        "Connection: close\r\n".toList ++ "\r\n".toList ∧
      (create_http_header 200 "OK".toList "image/png".toList 1234).length < HTTP_BUFFER_SIZE ∧
      "\r\n\r\n".toList <:+ create_http_header 200 "OK".toList "image/png".toList 1234 :=
  create_http_header_exact 200 "OK".toList "image/png".toList 1234 (by decide) (by decide)
    (by decide)

/-- C8, as stated, fails: the buffer `GET\0 /x` holds two
white-space-delimited tokens, yet the parser, which reads the buffer as a
C string, finds a method and no target. -/
theorem parse_two_tokens_counterexample :
    tokens "GET\x00 /x".toList = ["GET\x00".toList, "/x".toList] ∧
      parse_http_method "GET\x00 /x".toList = some "GET".toList ∧
      parse_file_path "GET\x00 /x".toList = none := by
  decide

/-- C8, amended. The parser yields a method and a target exactly when the
buffer's text before its first NUL byte holds at least two
white-space-delimited tokens; the method is then the first token cut to its
first 15 characters (the whole token when it has at most 15), the target is
the whole second token, and nothing after the second token matters. -/
theorem parse_iff_two_tokens (buf method target : List Char) :
    (parse_http_method buf = some method ∧ parse_file_path buf = some target) ↔
      ∃ tok rest, tokens (c_str buf) = tok :: target :: rest ∧ method = tok.take 15 ∧
        (tok.length ≤ 15 → method = tok) := by
  rw [parse_http_method_eq, parse_file_path_eq]
  constructor
  · rintro ⟨hm, ht⟩
    cases h : tokens (c_str buf) with
    | nil => rw [h] at hm; simp at hm
    | cons tok tl =>
      cases tl with
      | nil => rw [h] at ht; simp at ht
      | cons t rest =>
        rw [h] at hm ht
        simp at hm ht
        subst ht
        exact ⟨tok, rest, rfl, hm.symm, fun hl => by rw [← hm, List.take_of_length_le hl]⟩
  · rintro ⟨tok, rest, h, hm, -⟩
    rw [h, hm]
    simp

/-- C1, as stated, fails: in `GET\r\nHost: localhost\r\n\r\n` the request
line `GET` has no second token and `./err/400.html` is readable, yet the
parser reads across the line break, takes `Host:` for the target, and the
answer is the 404 page. -/
theorem missing_target_counterexample :
    tokens (request_line "GET\r\nHost: localhost\r\n\r\n".toList) = ["GET".toList] ∧
      readable demo_fs "./err/400.html".toList "bad".toList ∧
      main_loop demo_fs "GET\r\nHost: localhost\r\n\r\n".toList =
        .ok { opened := ["./publicHost:/index.html".toList, "./err/404.html".toList],
              sent := http_response 404 "Not Found".toList "text/html".toList "gone".toList } := by
  refine ⟨by decide, ⟨by decide, by decide⟩, by rfl⟩

/-- C1, amended. For every request buffer that holds fewer than two
white-space-delimited tokens in all (line breaks are white space like
blanks), with `./err/400.html` readable, the response is `400 Bad Request`,
`text/html`, with the 400 page as body and its size as
`Content-Length`. -/
theorem missing_target_bad_request (fs : FileSystem) (buf page : List Char)
    (h : (tokens buf).length < 2) (hp : readable fs "./err/400.html".toList page) :
    main_loop fs buf =
      .ok { opened := ["./err/400.html".toList],
            sent := http_response 400 "Bad Request".toList "text/html".toList page } := by
  have hlen := tokens_c_str_length buf
  have hparse : parse_http_method buf = none ∨ parse_file_path buf = none := by
    right
    rw [parse_file_path_eq]
    cases ht : tokens (c_str buf) with
    | nil => rfl
    | cons a tl =>
      cases tl with
      | nil => rfl
      | cons b tl2 =>
        rw [ht] at hlen
        simp at hlen
        omega
  rw [main_loop_bad fs buf hparse]
  exact congrArg _ (send_readable fs _ page 400 _ _ hp (by decide))

theorem missing_target_bad_request_witness :
    main_loop demo_fs "GET\r\n".toList =
      .ok { opened := ["./err/400.html".toList],
            sent := http_response 400 "Bad Request".toList "text/html".toList "bad".toList } :=
  missing_target_bad_request demo_fs "GET\r\n".toList "bad".toList (by decide)
    ⟨by decide, by decide⟩

/-- C2. For every request with a target whose method token, the first
token of the request text (the buffer read as a C string), is not exactly
`GET` (case-sensitive, of any length), with `./err/405.html` readable, the
response is `405 Method Not Allowed`, `text/html`, with the 405 page as
body, whatever the target and the file system. -/
theorem method_not_allowed (fs : FileSystem) (buf tok target : List Char)
    (rest : List (List Char)) (page : List Char)
    (htok : tokens (c_str buf) = tok :: target :: rest) (hne : tok ≠ "GET".toList)
    (hp : readable fs "./err/405.html".toList page) :
    main_loop fs buf =
      .ok { opened := ["./err/405.html".toList],
            sent := http_response 405 "Method Not Allowed".toList "text/html".toList page } := by
  have hm : parse_http_method buf = some (tok.take 15) := by
    rw [parse_http_method_eq, htok]; rfl
  have ht : parse_file_path buf = some target := by
    rw [parse_file_path_eq, htok]; rfl
  have hcut : tok.take 15 ≠ "GET".toList := by
    intro e
    have hl : (tok.take 15).length = 3 := by rw [e]; rfl
    rw [List.length_take] at hl
    have : tok.length ≤ 15 := by omega
    rw [List.take_of_length_le this] at e
    exact hne e
  unfold main_loop handle_client_request
  rw [hm, ht]
  simp only [ne_eq, hcut, not_false_eq_true, if_true]
  exact congrArg _ (send_readable fs _ page 405 _ _ hp (by decide))

theorem method_not_allowed_witness :
    main_loop demo_fs "POST /index.html HTTP/1.1\r\n\r\n".toList =
      .ok { opened := ["./err/405.html".toList],
            sent := http_response 405 "Method Not Allowed".toList "text/html".toList
              "no".toList } :=
  method_not_allowed demo_fs "POST /index.html HTTP/1.1\r\n\r\n".toList "POST".toList
    "/index.html".toList ["HTTP/1.1".toList] "no".toList (by decide) (by decide)
    ⟨by decide, by decide⟩

/-- C3. For every GET request whose target ends in an extension (the
suffix from its last dot) that is not a key of the MIME table, with
`./err/415.html` readable, the response is `415 Unsupported Media Type`,
`text/html`, with the 415 page as body; the only file opened is the 415
page, nothing under the root. -/
theorem unsupported_media_type (fs : FileSystem) (buf stem suf page : List Char)
    (hm : parse_http_method buf = some "GET".toList)
    (ht : parse_file_path buf = some (stem ++ '.' :: suf)) (hs : '.' ∉ suf)
    (hx : ('.' :: suf) ∉ mime_types.map Prod.fst)
    (hp : readable fs "./err/415.html".toList page) :
    ∃ conn, main_loop fs buf = .ok conn ∧
      conn.sent = http_response 415 "Unsupported Media Type".toList "text/html".toList page ∧
      conn.opened = ["./err/415.html".toList] ∧
      (∀ path ∈ conn.opened, ¬ HTTP_ROOT_DIR <+: path) ∧
      HTTP_ROOT_DIR ++ (stem ++ '.' :: suf) ∉ conn.opened := by
  rw [main_loop_ext fs buf _ _ hm ht (strrchr_last stem suf '.' hs),
    get_content_type_unknown hx]
  simp only
  have hsend : send_http_response fs "./err/415.html".toList 415
      "Unsupported Media Type".toList "text/html".toList =
        { opened := ["./err/415.html".toList],
          sent := http_response 415 "Unsupported Media Type".toList "text/html".toList page } :=
    send_readable fs _ page 415 _ _ hp (by decide)
  rw [hsend]
  refine ⟨_, rfl, rfl, rfl, ?_, ?_⟩
  · intro path hpath
    rw [List.mem_singleton] at hpath
    subst hpath
    decide
  · rw [List.mem_singleton]
    intro e
    have := congrArg (fun l => l.take 3) e
    simp [HTTP_ROOT_DIR] at this

theorem unsupported_media_type_witness :
    ∃ conn, main_loop demo_fs "GET /file.xyz HTTP/1.1\r\n\r\n".toList = .ok conn ∧
      conn.sent = http_response 415 "Unsupported Media Type".toList "text/html".toList
        "type".toList ∧
      conn.opened = ["./err/415.html".toList] ∧
      (∀ path ∈ conn.opened, ¬ HTTP_ROOT_DIR <+: path) ∧
      HTTP_ROOT_DIR ++ ("/file".toList ++ '.' :: "xyz".toList) ∉ conn.opened :=
  unsupported_media_type demo_fs "GET /file.xyz HTTP/1.1\r\n\r\n".toList "/file".toList
    "xyz".toList "type".toList (by decide) (by decide) (by decide) (by decide)
    ⟨by decide, by decide⟩

/-- C6, as stated, fails: for the GET request of 4095 bytes whose target
is a slash and 4090 letters, without a dot, the handler does not open root,
target and `/index.html`: the path is cut to 4095 characters and appending
`/index.html` runs past the buffer. -/
theorem index_resolution_counterexample :
    parse_http_method long_request = some "GET".toList ∧
      parse_file_path long_request = some long_target ∧
      '.' ∉ long_target ∧
      main_loop demo_fs long_request = .error Fault.buffer_overflow ∧
      main_loop demo_fs long_request ≠
        .ok (send_http_response demo_fs (HTTP_ROOT_DIR ++ long_target ++ "/index.html".toList)
          200 "OK".toList "text/html".toList) := by
  refine ⟨long_request_parse.1, long_request_parse.2, long_target_no_dot,
    long_request_overflow demo_fs, ?_⟩
  rw [long_request_overflow demo_fs]
  intro h
  cases h

/-- C6, amended. For every GET request whose target has no dot and at
most 4076 characters (so that root, target, `/index.html` and the
terminator fit the 4096-byte path buffer), the file the handler opens is
root, target, `/index.html`, and it is served as `text/html`. -/
theorem index_resolution (fs : FileSystem) (buf target : List Char)
    (hm : parse_http_method buf = some "GET".toList)
    (ht : parse_file_path buf = some target) (hdot : '.' ∉ target)
    (hlen : target.length ≤ 4076) :
    main_loop fs buf =
        .ok (send_http_response fs (HTTP_ROOT_DIR ++ target ++ "/index.html".toList)
          200 "OK".toList "text/html".toList) ∧
      (send_http_response fs (HTTP_ROOT_DIR ++ target ++ "/index.html".toList)
          200 "OK".toList "text/html".toList).opened.head? =
        some (HTTP_ROOT_DIR ++ target ++ "/index.html".toList) := by
  have e : HTTP_ROOT_DIR.length = 8 := rfl
  have hfit : (HTTP_ROOT_DIR ++ target).length < HTTP_BUFFER_SIZE := by
    simp only [List.length_append, e, HTTP_BUFFER_SIZE]; omega
  refine ⟨?_, send_http_response_opened _ _ _ _ _⟩
  rw [main_loop_dir fs buf target hm ht (strrchr_none hdot), snprintf_short hfit]
  rw [if_pos (by simp only [List.length_append, e, HTTP_BUFFER_SIZE]; omega)]

theorem index_resolution_witness :
    main_loop demo_fs "GET / HTTP/1.1\r\n\r\n".toList =
        .ok (send_http_response demo_fs (HTTP_ROOT_DIR ++ "/".toList ++ "/index.html".toList)
          200 "OK".toList "text/html".toList) ∧
      (send_http_response demo_fs (HTTP_ROOT_DIR ++ "/".toList ++ "/index.html".toList)
          200 "OK".toList "text/html".toList).opened.head? =
        some (HTTP_ROOT_DIR ++ "/".toList ++ "/index.html".toList) :=
  index_resolution demo_fs "GET / HTTP/1.1\r\n\r\n".toList "/".toList (by decide) (by decide)
    (by decide) (by decide)

/-- C10. The request of 4095 bytes made of `GET`, a blank, a slash and
4090 letters parses as a GET with a target; root followed by the target has
4099 characters, `snprintf` stores 4095 of them, and `strcat` of
`/index.html` then writes past the 4096-byte buffer. -/
theorem full_path_overflow (fs : FileSystem) :
    long_request.length = 4095 ∧
      parse_http_method long_request = some "GET".toList ∧
      parse_file_path long_request = some long_target ∧
      '.' ∉ long_target ∧
      (HTTP_ROOT_DIR ++ long_target).length = 4099 ∧
      (snprintf HTTP_BUFFER_SIZE (HTTP_ROOT_DIR ++ long_target)).length = 4095 ∧
      main_loop fs long_request = .error Fault.buffer_overflow := by
  have e : HTTP_ROOT_DIR.length = 8 := rfl
  have e2 : "GET ".toList.length = 4 := rfl
  refine ⟨?_, long_request_parse.1, long_request_parse.2, long_target_no_dot, ?_,
    long_path_length, long_request_overflow fs⟩
  · simp only [long_request, long_target, List.length_append, List.length_cons,
      List.length_replicate, e2]
  · simp only [long_target, List.length_append, List.length_cons, List.length_replicate, e]

/-- C4, as stated, fails in its last part: the GET request of 4095 bytes
for `deep_target`, a target with the supported extension `.css`, names a
file, root followed by target, that cannot be opened, and the 404 page is
readable; yet the response is not the 404 response: the path is cut to 4095
characters, which is the existing file `deep_file`, served with
`200 OK`. -/
theorem not_found_counterexample :
    deep_request.length = 4095 ∧
      parse_http_method deep_request = some "GET".toList ∧
      parse_file_path deep_request = some deep_target ∧
      deep_target = (deep_dirs ++ "f".toList) ++ '.' :: "css".toList ∧
      sys_open deep_fs (HTTP_ROOT_DIR ++ deep_target) = none ∧
      readable deep_fs "./err/404.html".toList "gone".toList ∧
      main_loop deep_fs deep_request =
        .ok { opened := [deep_file],
              sent := http_response 200 "OK".toList "text/css".toList "file".toList } := by
  have hshape : deep_target = (deep_dirs ++ "f".toList) ++ '.' :: "css".toList := by
    simp only [deep_target, List.append_assoc]
    rfl
  have hext : strrchr deep_target '.' = some ".css".toList := by
    rw [hshape]
    exact strrchr_last _ _ '.' (by decide)
  have hct : get_content_type (some ".css".toList) = some "text/css".toList := by decide
  refine ⟨?_, deep_request_parse.1, deep_request_parse.2, hshape, deep_fs_missing,
    ⟨by decide, by decide⟩, ?_⟩
  · have e1 : HTTP_ROOT_DIR.length = 8 := rfl
    have e2 : "GET ".toList.length = 4 := rfl
    have := deep_path_length
    rw [List.length_append, e1] at this
    rw [deep_request, List.length_append, e2]
    omega
  · rw [main_loop_ext deep_fs deep_request deep_target _ deep_request_parse.1
      deep_request_parse.2 hext, hct]
    simp only
    rw [deep_path_cut]
    exact congrArg _ (send_readable deep_fs _ "file".toList 200 _ _ deep_fs_file (by decide))

/-- C4, amended. With `./err/404.html` readable: every call of
`send_http_response` whose file cannot be opened, whatever status code,
reason and content type it was given, sends the `404 Not Found`,
`text/html` header with the size of the 404 page and then the 404 page; and
a GET for a target with a supported extension whose file, root followed by
target, fits the 4096-byte path buffer and cannot be opened gets exactly
this response. -/
theorem not_found_fallback (fs : FileSystem) (page : List Char)
    (hp : readable fs "./err/404.html".toList page) :
    (∀ (path : List Char) (code : Int) (msg ct : List Char), sys_open fs path = none →
      send_http_response fs path code msg ct =
        { opened := [path, "./err/404.html".toList],
          sent := http_response 404 "Not Found".toList "text/html".toList page }) ∧
    (∀ (buf stem suf ct : List Char), parse_http_method buf = some "GET".toList →
      parse_file_path buf = some (stem ++ '.' :: suf) → '.' ∉ suf →
      ('.' :: suf, ct) ∈ mime_types →
      (HTTP_ROOT_DIR ++ (stem ++ '.' :: suf)).length < HTTP_BUFFER_SIZE →
      sys_open fs (HTTP_ROOT_DIR ++ (stem ++ '.' :: suf)) = none →
      main_loop fs buf =
        .ok { opened := [HTTP_ROOT_DIR ++ (stem ++ '.' :: suf), "./err/404.html".toList],
              sent := http_response 404 "Not Found".toList "text/html".toList page }) := by
  have send404 : ∀ (path : List Char) (code : Int) (msg ct : List Char),
      sys_open fs path = none →
      send_http_response fs path code msg ct =
        { opened := [path, "./err/404.html".toList],
          sent := http_response 404 "Not Found".toList "text/html".toList page } := by
    intro path code msg ct hnone
    obtain ⟨hopen, hsize⟩ := hp
    have hlen := repr_toList_length page.length (lt_of_le_of_lt hsize sendfile_max_lt)
    unfold send_http_response send_opened
    rw [hnone, hopen]
    simp only
    rw [create_http_header_whole _ _ _ _ (by
      have e : (fmt_d 404).length + "Not Found".toList.length + "text/html".toList.length = 21 :=
        rfl
      rw [fmt_d_natCast]; omega), sys_sendfile_whole _ _ hsize]
    simp only [http_response, fmt_d_natCast, List.append_assoc]
    rfl
  refine ⟨send404, ?_⟩
  intro buf stem suf ct hm ht hs hrow hfit hnone
  have hct := get_content_type_row _ hrow
  simp only at hct
  rw [main_loop_ext fs buf _ _ hm ht (strrchr_last stem suf '.' hs), hct]
  simp only
  rw [snprintf_short hfit, send404 _ _ _ _ hnone]

theorem not_found_fallback_witness :
    send_http_response demo_fs "./err/415.html.bak".toList 415 "Unsupported Media Type".toList
        "text/html".toList =
      { opened := ["./err/415.html.bak".toList, "./err/404.html".toList],
        sent := http_response 404 "Not Found".toList "text/html".toList "gone".toList } ∧
    main_loop demo_fs "GET /missing.html HTTP/1.1\r\n\r\n".toList =
      .ok { opened := [HTTP_ROOT_DIR ++ ("/missing".toList ++ '.' :: "html".toList),
              "./err/404.html".toList],
            sent := http_response 404 "Not Found".toList "text/html".toList "gone".toList } :=
  ⟨(not_found_fallback demo_fs "gone".toList ⟨by decide, by decide⟩).1
      "./err/415.html.bak".toList 415 "Unsupported Media Type".toList "text/html".toList
      (by decide),
    (not_found_fallback demo_fs "gone".toList ⟨by decide, by decide⟩).2
      "GET /missing.html HTTP/1.1\r\n\r\n".toList "/missing".toList "html".toList
      "text/html".toList (by decide) (by decide) (by decide) (by decide) (by decide)
      (by decide)⟩

/-- C9, as stated, fails. `GET /../err/404.html` reaches the file-open
step with the path `./public/../err/404.html`, which begins with the root
but, its `..` resolved, is `./err/404.html`, beside the root; the file is
served with `200 OK`.  `GET _private`, a target that does not begin with a
slash, opens `./public_private/index.html`, in a directory beside the
root.  The GET request for 4085 slashes and `...js`, a target without a
`..` segment, opens the path cut to 4095 characters, which ends in `/..`
and is the directory above the root. -/
theorem traversal_counterexample :
    (main_loop demo_fs "GET /../err/404.html HTTP/1.1\r\n\r\n".toList =
        .ok { opened := ["./public/../err/404.html".toList],
              sent := http_response 200 "OK".toList "text/html".toList "gone".toList } ∧
      HTTP_ROOT_DIR <+: "./public/../err/404.html".toList ∧
      resolve_dots "./public/../err/404.html".toList = some ["err".toList, "404.html".toList] ∧
      inside_root "./public/../err/404.html".toList = false) ∧
    (main_loop demo_fs "GET _private HTTP/1.1\r\n\r\n".toList =
        .ok { opened := ["./public_private/index.html".toList],
              sent := http_response 200 "OK".toList "text/html".toList "secret".toList } ∧
      resolve_dots "./public_private/index.html".toList =
        some ["public_private".toList, "index.html".toList] ∧
      inside_root "./public_private/index.html".toList = false) ∧
    (slashes_target.head? = some '/' ∧
      "..".toList ∉ slashes_target.splitOn '/' ∧
      main_loop demo_fs slashes_request =
        .ok (send_http_response demo_fs slashes_path 200 "OK".toList
          "application/javascript".toList) ∧
      (send_http_response demo_fs slashes_path 200 "OK".toList
          "application/javascript".toList).opened.head? = some slashes_path ∧
      slashes_path = HTTP_ROOT_DIR ++ List.replicate 4085 '/' ++ "..".toList ∧
      resolve_dots slashes_path = some [] ∧
      inside_root slashes_path = false) := by
  refine ⟨⟨by rfl, by decide, by decide, by decide⟩, ⟨by rfl, by decide, by decide⟩,
    ⟨?_, slashes_target_segments, slashes_run demo_fs, send_http_response_opened _ _ _ _ _,
      rfl, slashes_path_resolved, ?_⟩⟩
  · rw [slashes_target, List.replicate_succ]
    rfl
  · unfold inside_root
    rw [slashes_path_resolved]

/-- C9, amended. For every GET request that reaches the file-open step
(its content type resolves and the path assembly does not overflow), the
path opened is the root followed by the target, cut to 4095 characters,
with `/index.html` appended for a target without a dot; it begins with the
root `./public`; and when the target begins with a slash and the path has
no `..` segment, the path, its `.` segments resolved, denotes a location
inside the root.  The path has no `..` segment when the target has none and
root followed by target has at most 4095 characters. -/
theorem full_path_rooted (fs : FileSystem) (buf target ct : List Char) (conn : Conn)
    (hm : parse_http_method buf = some "GET".toList)
    (ht : parse_file_path buf = some target)
    (hct : get_content_type (some ((strrchr target '.').getD ".html".toList)) = some ct)
    (hok : main_loop fs buf = .ok conn) :
    conn = send_http_response fs (resolved_path target) 200 "OK".toList ct ∧
      conn.opened.head? = some (resolved_path target) ∧
      HTTP_ROOT_DIR <+: resolved_path target ∧
      (target.head? = some '/' → "..".toList ∉ (resolved_path target).splitOn '/' →
        inside_root (resolved_path target) = true) ∧
      (target.head? = some '/' → (HTTP_ROOT_DIR ++ target).length ≤ 4095 →
        "..".toList ∉ target.splitOn '/' → inside_root (resolved_path target) = true) := by
  have hconn : conn = send_http_response fs (resolved_path target) 200 "OK".toList ct := by
    cases hext : strrchr target '.' with
    | some ext =>
      have hdot : '.' ∈ target := by
        by_contra hn
        rw [strrchr_none hn] at hext
        cases hext
      rw [hext] at hct
      simp only [Option.getD_some] at hct
      rw [main_loop_ext fs buf target ext hm ht hext, hct] at hok
      simp only [Except.ok.injEq] at hok
      rw [← hok, resolved_path, if_pos hdot]
      rfl
    | none =>
      have hdot : '.' ∉ target := fun m => strrchr_of_mem m hext
      rw [hext] at hct
      simp only [Option.getD_none] at hct
      have hty : ct = "text/html".toList := by
        have : get_content_type (some ".html".toList) = some "text/html".toList := by decide
        rw [this] at hct
        exact (Option.some.inj hct).symm
      rw [main_loop_dir fs buf target hm ht hext] at hok
      split at hok
      · simp only [Except.ok.injEq] at hok
        rw [← hok, resolved_path, if_neg hdot, hty]
        rfl
      · cases hok
  have hin : target.head? = some '/' → "..".toList ∉ (resolved_path target).splitOn '/' →
      inside_root (resolved_path target) = true := by
    intro hhead hdd
    cases target with
    | nil => simp at hhead
    | cons c rest =>
      have hc : c = '/' := by simpa using hhead
      subst hc
      obtain ⟨r, hr⟩ := resolved_path_under_root rest
      rw [hr] at hdd ⊢
      exact inside_root_of_no_dotdot r hdd
  refine ⟨hconn, by rw [hconn]; exact send_http_response_opened _ _ _ _ _,
    resolved_path_rooted target, hin, ?_⟩
  intro hhead hfit hdd
  apply hin hhead
  cases target with
  | nil => simp at hhead
  | cons c rest =>
    have hc : c = '/' := by simpa using hhead
    subst hc
    exact resolved_path_no_dotdot rest hfit hdd

theorem full_path_rooted_witness :
    (send_http_response demo_fs "./public/a.png".toList 200 "OK".toList "image/png".toList) =
        send_http_response demo_fs (resolved_path "/a.png".toList) 200 "OK".toList
          "image/png".toList ∧
      (send_http_response demo_fs "./public/a.png".toList 200 "OK".toList
        "image/png".toList).opened.head? = some (resolved_path "/a.png".toList) ∧
      HTTP_ROOT_DIR <+: resolved_path "/a.png".toList ∧
      inside_root (resolved_path "/a.png".toList) = true :=
  have h := full_path_rooted demo_fs "GET /a.png HTTP/1.1\r\n\r\n".toList "/a.png".toList
    "image/png".toList _ (by decide) (by decide) (by decide) (by rfl)
  ⟨h.1, h.2.1, h.2.2.1, h.2.2.2.1 (by decide) (by decide)⟩

end WebServer
